import Mathlib

/-!
Verification of the structural analysis engine of the RagKB repository:
the Tree-sitter-based pattern extractor (extract_ast.py), control-flow
builder (build_cfg.py), dependency builder (build_pdg.py) and the shared
utilities (utils.py), in both their archive
(src/archive/original_scripts_used_in_analysis/src_original/) and src/src
variants.  Syntax trees produced by the external Tree-sitter parser are
modelled as an explicit rose tree (`Node`); every extractor below is a
direct translation of the corresponding Python function.
-/

/-- A Tree-sitter syntax-tree node: kind tag (`node.type`), 0-based start
row (`node.start_point[0]`), decoded text (`node.text.decode`), children. -/
inductive Node where
  | mk (kind : String) (start_row : Nat) (text : String) (children : List Node)

def Node.kind : Node → String
  | .mk k _ _ _ => k

def Node.start_row : Node → Nat
  | .mk _ r _ _ => r

def Node.text : Node → String
  | .mk _ _ t _ => t

def Node.children : Node → List Node
  | .mk _ _ _ cs => cs

/-- Induction principle for `Node` with the child hypotheses packaged as
membership, usable with plain list lemmas. -/
theorem Node.my_ind {P : Node → Prop}
    (h : ∀ k r t cs, (∀ c ∈ cs, P c) → P (Node.mk k r t cs)) : ∀ n, P n := by
  intro n
  induction n using Node.rec (motive_2 := fun cs => ∀ c ∈ cs, P c) with
  | mk k r t cs ih => exact h k r t cs ih
  | nil =>
    rename_i c hc
    exact absurd hc (List.not_mem_nil c)
  | cons hd tl hhd htl =>
    rename_i c hc
    rcases List.mem_cons.mp hc with rfl | hc
    · exact hhd
    · exact htl c hc

mutual

/-- Pre-order collection over a tree: visit the node, then every child, as
the nested `traverse` helpers in the Python extractors do. -/
def collect_node {α : Type} (p : Node → List α) : Node → List α
  | .mk k r t cs => p (.mk k r t cs) ++ collect_list p cs

def collect_list {α : Type} (p : Node → List α) : List Node → List α
  | [] => []
  | c :: cs => collect_node p c ++ collect_list p cs

end

mutual

/-- extract_ast.py `_count_nodes` (archive, lines 61-69): node count with a
depth ceiling; a subtree whose root sits beyond the ceiling counts as one
node. -/
def count_nodes : Node → Nat → Nat → Nat
  | .mk _ _ _ cs, current_depth, max_depth =>
    if current_depth > max_depth then 1
    else 1 + count_nodes_children cs current_depth max_depth

def count_nodes_children : List Node → Nat → Nat → Nat
  | [], _, _ => 0
  | c :: cs, current_depth, max_depth =>
    count_nodes c (current_depth + 1) max_depth
      + count_nodes_children cs current_depth max_depth

end

mutual

/-- extract_ast.py `_calculate_depth` (archive, lines 71-81): true maximum
nesting depth by unrestricted recursive descent, accumulating
`max_child_depth` exactly as the Python loop does. -/
def calculate_depth : Node → Nat → Nat
  | .mk _ _ _ [], current_depth => current_depth
  | .mk _ _ _ (c :: cs), current_depth =>
    depth_loop (c :: cs) current_depth 0

def depth_loop : List Node → Nat → Nat → Nat
  | [], _, max_child_depth => max_child_depth
  | c :: cs, current_depth, max_child_depth =>
    depth_loop cs current_depth
      (max max_child_depth (calculate_depth c (current_depth + 1)))

end

mutual

/-- Spec-side definition: the true full-tree node count (the claim's "true
full-tree node count", no ceiling). -/
def tree_size : Node → Nat
  | .mk _ _ _ cs => 1 + tree_size_children cs

def tree_size_children : List Node → Nat
  | [] => 0
  | c :: cs => tree_size c + tree_size_children cs

end

mutual

/-- Spec-side definition: the true maximum nesting depth of a tree (a leaf
has depth 0). -/
def tree_height : Node → Nat
  | .mk _ _ _ [] => 0
  | .mk _ _ _ (c :: cs) => 1 + tree_height_children (c :: cs)

def tree_height_children : List Node → Nat
  | [] => 0
  | c :: cs => max (tree_height c) (tree_height_children cs)

end

theorem tree_size_pos (n : Node) : 1 ≤ tree_size n := by
  cases n with
  | mk k r t cs => rw [tree_size]; omega

theorem count_nodes_le_tree_size (n : Node) :
    ∀ cd md : Nat, count_nodes n cd md ≤ tree_size n := by
  induction n using Node.my_ind with
  | h k r t cs ih =>
    intro cd md
    rw [count_nodes, tree_size]
    by_cases hcd : cd > md
    · simp only [hcd, if_true]
      have : 0 ≤ tree_size_children cs := Nat.zero_le _
      omega
    · simp only [hcd, if_false]
      have hch : ∀ l : List Node, (∀ c ∈ l, ∀ cd md : Nat,
          count_nodes c cd md ≤ tree_size c) →
          count_nodes_children l cd md ≤ tree_size_children l := by
        intro l
        induction l with
        | nil => intro _; rw [count_nodes_children, tree_size_children]
        | cons c cs ihl =>
          intro hall
          rw [count_nodes_children, tree_size_children]
          have h1 := hall c (List.mem_cons_self c cs) (cd + 1) md
          have h2 := ihl (fun c hc => hall c (List.mem_cons_of_mem _ hc))
          omega
      have := hch cs ih
      omega

theorem count_nodes_beyond_ceiling (n : Node) (md k : Nat) :
    count_nodes n (md + 1 + k) md = 1 := by
  cases n with
  | mk _ _ _ cs =>
    rw [count_nodes]
    have : md + 1 + k > md := by omega
    simp [this]

theorem max_add_left (a b c : Nat) : max (a + b) (a + c) = a + max b c := by
  rcases Nat.le_total b c with h | h
  · rw [Nat.max_eq_right h, Nat.max_eq_right (Nat.add_le_add_left h a)]
  · rw [Nat.max_eq_left h, Nat.max_eq_left (Nat.add_le_add_left h a)]

/-- Helper: the maximum of `cd + 1 + tree_height c` over the list. -/
def hlist : List Node → Nat → Nat
  | [], _ => 0
  | c :: cs, cd => max (cd + 1 + tree_height c) (hlist cs cd)

theorem depth_loop_acc (l : List Node)
    (ih : ∀ c ∈ l, ∀ cd : Nat, calculate_depth c cd = cd + tree_height c) :
    ∀ cd acc : Nat, depth_loop l cd acc = max acc (hlist l cd) := by
  induction l with
  | nil =>
    intro cd acc
    rw [depth_loop, hlist, Nat.max_zero]
  | cons c cs ihl =>
    intro cd acc
    rw [depth_loop, hlist]
    rw [ihl (fun c hc => ih c (List.mem_cons_of_mem _ hc))]
    rw [ih c (List.mem_cons_self c cs) (cd + 1)]
    rw [Nat.max_assoc]

theorem hlist_nonempty (c : Node) (cs : List Node) (cd : Nat) :
    hlist (c :: cs) cd = cd + 1 + tree_height_children (c :: cs) := by
  induction cs generalizing c with
  | nil =>
    rw [hlist, hlist, tree_height_children, tree_height_children, Nat.max_zero,
      Nat.max_zero]
  | cons c2 cs2 ihl =>
    rw [hlist, ihl c2]
    conv_rhs => rw [tree_height_children]
    rw [max_add_left]

theorem calculate_depth_eq_height (n : Node) :
    ∀ cd : Nat, calculate_depth n cd = cd + tree_height n := by
  induction n using Node.my_ind with
  | h k r t cs ih =>
    intro cd
    cases cs with
    | nil => rw [calculate_depth, tree_height]; omega
    | cons c cs2 =>
      rw [calculate_depth, tree_height]
      rw [depth_loop_acc (c :: cs2) ih cd 0, Nat.zero_max, hlist_nonempty]
      omega

/-- C9: `_count_nodes` truncates every subtree rooted beyond the depth
ceiling to a single node, so the reported `node_count` never exceeds the
true full-tree node count, while `_calculate_depth` computes the true
maximum nesting depth with no ceiling; on deep trees the two can
therefore disagree. -/
theorem node_count_ceiling_vs_true_depth (n : Node) (md k : Nat) :
    count_nodes n (md + 1 + k) md = 1 ∧
    count_nodes n 0 md ≤ tree_size n ∧
    calculate_depth n 0 = tree_height n := by
  refine ⟨count_nodes_beyond_ceiling n md k, count_nodes_le_tree_size n 0 md, ?_⟩
  have := calculate_depth_eq_height n 0
  omega

/-- Python whitespace class for `str.strip` and the regex `\s` (ASCII). -/
def py_ws (c : Char) : Bool :=
  c == ' ' || c == '\t' || c == '\n' || c == '\r' ||
    c == Char.ofNat 11 || c == Char.ofNat 12

/-- Python `str.strip()`: drop leading and trailing whitespace. -/
def py_strip_chars (l : List Char) : List Char :=
  ((l.dropWhile py_ws).reverse.dropWhile py_ws).reverse

def py_strip (s : String) : String :=
  ⟨py_strip_chars s.data⟩

/-- The regex substitution `re.sub(r"\s+", " ", s)` of utils.py
`clean_error_message`: each maximal run of whitespace becomes one space. -/
def collapse_ws : List Char → List Char
  | [] => []
  | [c] => if py_ws c then [' '] else [c]
  | c1 :: c2 :: rest =>
    if py_ws c1 && py_ws c2 then collapse_ws (c2 :: rest)
    else (if py_ws c1 then ' ' else c1) :: collapse_ws (c2 :: rest)

/-- utils.py `clean_error_message` (archive, lines 182-204): empty message
becomes "Unknown error"; otherwise strip, collapse whitespace runs, and
when longer than `max_length` truncate to `max_length - 3` characters plus
"...". -/
def clean_error_message (error : String) (max_length : Nat) : String :=
  if error = "" then "Unknown error"
  else
    let cleaned := collapse_ws (py_strip_chars error.data)
    if max_length < cleaned.length then
      ⟨cleaned.take (max_length - 3) ++ ['.', '.', '.']⟩
    else ⟨cleaned⟩

/-- Whitespace-normalized check: no two adjacent whitespace characters. -/
def no_ws_run : List Char → Bool
  | [] => true
  | [_] => true
  | c1 :: c2 :: rest => (!(py_ws c1 && py_ws c2)) && no_ws_run (c2 :: rest)

theorem collapse_ws_cons_not_ws (c : Char) (r : List Char) (h : py_ws c = false) :
    collapse_ws (c :: r) = c :: collapse_ws r := by
  cases r with
  | nil => rw [collapse_ws, collapse_ws]; simp [h]
  | cons c2 r2 => rw [collapse_ws]; simp [h]

theorem no_ws_run_cons_left (c : Char) (t : List Char) (h : py_ws c = false)
    (ht : no_ws_run t = true) : no_ws_run (c :: t) = true := by
  cases t with
  | nil => rfl
  | cons x xs =>
    rw [no_ws_run]
    simp [h, ht]

theorem no_ws_run_cons_pair (c1 c2 : Char) (t : List Char)
    (h : py_ws c2 = false) (ht : no_ws_run (c2 :: t) = true) :
    no_ws_run (c1 :: c2 :: t) = true := by
  rw [no_ws_run]
  simp [h, ht]

theorem no_ws_run_collapse (l : List Char) : no_ws_run (collapse_ws l) = true := by
  induction l with
  | nil => rfl
  | cons c1 rest ih =>
    cases rest with
    | nil =>
      rw [collapse_ws]
      by_cases h : py_ws c1 <;> simp [h] <;> rfl
    | cons c2 r2 =>
      rw [collapse_ws]
      cases h1 : py_ws c1 <;> cases h2 : py_ws c2
      · simp only [Bool.false_and, if_false, Bool.false_eq_true]
        exact no_ws_run_cons_left c1 _ h1 ih
      · simp only [Bool.false_and, if_false, Bool.false_eq_true]
        exact no_ws_run_cons_left c1 _ h1 ih
      · simp only [Bool.true_and, h2, if_false, h1, if_true, Bool.true_eq_false]
        rw [collapse_ws_cons_not_ws c2 r2 h2] at ih ⊢
        exact no_ws_run_cons_pair ' ' c2 _ h2 ih
      · simp only [Bool.true_and, h2, if_true]
        exact ih

theorem no_ws_run_take (l : List Char) (h : no_ws_run l = true) :
    ∀ m : Nat, no_ws_run (l.take m) = true := by
  induction l with
  | nil => intro m; simp [no_ws_run]
  | cons c rest ih =>
    intro m
    cases m with
    | zero => rfl
    | succ m2 =>
      cases rest with
      | nil => cases m2 <;> rfl
      | cons c2 r2 =>
        rw [no_ws_run] at h
        have h1 : (!(py_ws c && py_ws c2)) = true := ((Bool.and_eq_true _ _).mp h).1
        have h2 : no_ws_run (c2 :: r2) = true := ((Bool.and_eq_true _ _).mp h).2
        cases m2 with
        | zero => rfl
        | succ m3 =>
          simp only [List.take]
          rw [no_ws_run]
          have htail := ih h2 (m3 + 1)
          simp only [List.take] at htail
          simp [h1, htail]

theorem no_ws_run_append_dots (l : List Char) (h : no_ws_run l = true) :
    no_ws_run (l ++ ['.', '.', '.']) = true := by
  induction l with
  | nil => rfl
  | cons c rest ih =>
    cases rest with
    | nil =>
      simp only [List.cons_append, List.nil_append]
      exact no_ws_run_cons_pair c '.' ['.', '.'] (by decide) (by decide)
    | cons c2 r2 =>
      rw [no_ws_run] at h
      have h1 : (!(py_ws c && py_ws c2)) = true := ((Bool.and_eq_true _ _).mp h).1
      have h2 : no_ws_run (c2 :: r2) = true := ((Bool.and_eq_true _ _).mp h).2
      simp only [List.cons_append]
      rw [no_ws_run]
      have htail := ih h2
      simp only [List.cons_append] at htail
      simp [h1, htail]

theorem clean_error_message_length_le (e : String) (cap : Nat) (hcap : 13 ≤ cap) :
    (clean_error_message e cap).length ≤ cap := by
  rw [clean_error_message]
  by_cases he : e = ""
  · simp only [he, if_true]
    have h13 : ("Unknown error" : String).length = 13 := by rfl
    omega
  · simp only [he, if_false]
    by_cases hl : cap < (collapse_ws (py_strip_chars e.data)).length
    · simp only [hl, if_true]
      have hlen : (String.mk ((collapse_ws (py_strip_chars e.data)).take (cap - 3)
          ++ ['.', '.', '.'])).length =
          ((collapse_ws (py_strip_chars e.data)).take (cap - 3)).length + 3 := by
        simp [String.length]
      rw [hlen]
      have := List.length_take_le (cap - 3) (collapse_ws (py_strip_chars e.data))
      omega
    · simp only [hl, if_false]
      have : (String.mk (collapse_ws (py_strip_chars e.data))).length =
          (collapse_ws (py_strip_chars e.data)).length := by simp [String.length]
      omega

theorem clean_error_message_normalized (e : String) (cap : Nat) :
    no_ws_run (clean_error_message e cap).data = true := by
  rw [clean_error_message]
  by_cases he : e = ""
  · simp only [he, if_true]
    decide
  · simp only [he, if_false]
    by_cases hl : cap < (collapse_ws (py_strip_chars e.data)).length
    · simp only [hl, if_true]
      exact no_ws_run_append_dots _
        (no_ws_run_take _ (no_ws_run_collapse _) (cap - 3))
    · simp only [hl, if_false]
      exact no_ws_run_collapse _

/-- A Python/JSON-style value, used to model the result dictionaries the
engine returns at its boundary. -/
inductive JVal where
  | null
  | bool (b : Bool)
  | nat (n : Nat)
  | str (s : String)
  | arr (xs : List JVal)
  | dict (kvs : List (String × JVal))

def success_key : String := "success"
def error_key : String := "error"
def functions_key : String := "functions"
def global_stats_key : String := "global_stats"
def node_count_key : String := "node_count"
def depth_key : String := "depth"
def patterns_key : String := "patterns"
def timeout_msg : String := "timeout"

/-- Top-level keys of a dict value, in insertion order. -/
def JVal.topKeys : JVal → List String
  | .dict kvs => kvs.map Prod.fst
  | _ => []

/-- Value of a top-level dict field. -/
def JVal.lookupKey : JVal → String → Option JVal
  | .dict kvs, k => List.lookup k kvs
  | _, _ => none

/-- extract_ast.py `extract_ast_patterns_internal` failure record (archive,
lines 52-59): built when the parse step raises. -/
def ast_failure_record (e : String) : JVal :=
  .dict [(success_key, .bool false),
         (error_key, .str (clean_error_message e 100)),
         (node_count_key, .nat 0),
         (depth_key, .nat 0),
         (patterns_key, .dict [])]

/-- build_pdg.py `build_simple_pdg_internal` failure record (archive, lines
59-64). -/
def pdg_failure_record (e : String) : JVal :=
  .dict [(success_key, .bool false),
         (error_key, .str (clean_error_message e 100)),
         (functions_key, .dict [])]

/-- build_cfg.py `build_simple_cfg_internal` failure record (archive, lines
69-74). -/
def cfg_failure_record (e : String) : JVal :=
  .dict [(success_key, .bool false),
         (error_key, .str (clean_error_message e 100)),
         (functions_key, .dict [])]

/-- src/src/build_pdg.py `build_simple_pdg` failure record (lines 48-53):
the error text is the raw `str(e)`, with no cleaning or cap. -/
def pdg_failure_record_srcsrc (e : String) : JVal :=
  .dict [(success_key, .bool false),
         (error_key, .str e),
         (functions_key, .dict [])]

/-- Top-level keys of the success-path result dict literal of extract_ast.py
`extract_ast_patterns_internal` (archive, lines 35-48). -/
def ast_success_keys : List String :=
  ["success", "node_count", "depth", "patterns"]

/-- Top-level keys of the success-path result dict literal of build_pdg.py
`build_simple_pdg_internal` (archive, lines 38-46). -/
def pdg_success_keys : List String :=
  ["success", "functions", "global_stats"]

/-- Top-level keys of the success-path result dict literal of build_cfg.py
`build_simple_cfg_internal` (archive, lines 38-46). -/
def cfg_success_keys : List String :=
  ["success", "functions", "global_stats"]

/-- C6 counterexample: the PDG layer's parse-failure record does not carry
every field name of the success path; `global_stats` (a record of numeric
fields on the success path) is simply absent, rather than present with
zeros. -/
theorem pdg_failure_record_missing_global_stats :
    global_stats_key ∈ pdg_success_keys ∧
    global_stats_key ∉ (pdg_failure_record ("boom")).topKeys := by
  constructor
  · decide
  · decide

/-- C6 as amended: on parse failure every layer returns `success = false`
with an error string; the AST failure record keeps `node_count = 0`,
`depth = 0` and an empty `patterns` dict (so every success-path field name
is still present), but the CFG and PDG failure records contain only
`success`, `error` and an empty `functions` dict — their success-path
`global_stats` field (with its numeric members) is omitted, not zeroed. -/
theorem parse_failure_record_shape (e : String) :
    ((ast_failure_record e).lookupKey success_key = some (.bool false) ∧
     (ast_failure_record e).lookupKey node_count_key = some (.nat 0) ∧
     (ast_failure_record e).lookupKey depth_key = some (.nat 0) ∧
     (ast_failure_record e).lookupKey patterns_key = some (.dict []) ∧
     (ast_failure_record e).topKeys =
       ["success", "error", "node_count", "depth", "patterns"] ∧
     ast_success_keys.all ((ast_failure_record e).topKeys.contains ·) = true) ∧
    ((pdg_failure_record e).lookupKey success_key = some (.bool false) ∧
     (pdg_failure_record e).lookupKey functions_key = some (.dict []) ∧
     (pdg_failure_record e).topKeys = ["success", "error", "functions"]) ∧
    ((cfg_failure_record e).lookupKey success_key = some (.bool false) ∧
     (cfg_failure_record e).lookupKey functions_key = some (.dict []) ∧
     (cfg_failure_record e).topKeys = ["success", "error", "functions"]) := by
  refine ⟨⟨?_, ?_, ?_, ?_, rfl, rfl⟩, ⟨?_, ?_, rfl⟩, ⟨?_, ?_, rfl⟩⟩ <;> rfl

/-- The status of the worker thread of `timeout_wrapper` at the moment
`thread.join(timeout_seconds)` returns: it finished with a value, finished
with an exception, or is still running (in which case it may or may not
eventually produce some result in the background). -/
inductive WorkerOutcome where
  | finished (r : JVal)
  | raised (e : String)
  | running (later : Option (Except String JVal))

/-- utils.py `timeout_wrapper` (archive, lines 14-45), modelled as a pure
function of the worker status at join expiry.  The second component is the
worker state after the wrapper returns: the wrapper never terminates the
worker, so the state is passed through unchanged, and on the `running`
path the caller gets the fixed timeout record whatever the worker would
later produce. -/
def timeout_wrapper : WorkerOutcome → JVal × WorkerOutcome
  | .running later =>
    (.dict [(success_key, .bool false), (error_key, .str timeout_msg)],
      .running later)
  | .raised e =>
    (.dict [(success_key, .bool false), (error_key, .str e)], .raised e)
  | .finished r => (r, .finished r)

/-- C7: when the worker has not completed at budget expiry, the wrapper
returns exactly the record with success = false and error = "timeout"; the
worker is left in its running state (not terminated), and whatever result
it may later produce never changes what the caller received. -/
theorem timeout_returns_timeout_record_and_discards_result
    (later : Option (Except String JVal)) :
    (timeout_wrapper (.running later)).1 =
      .dict [(success_key, .bool false), (error_key, .str timeout_msg)] ∧
    (timeout_wrapper (.running later)).2 = .running later ∧
    ∀ later2 : Option (Except String JVal),
      (timeout_wrapper (.running later)).1 =
        (timeout_wrapper (.running later2)).1 :=
  ⟨rfl, rfl, fun _ => rfl⟩

/-- C8 counterexample: the src/src `build_simple_pdg` failure path stores
the raw exception text; with an exception message containing two adjacent
spaces the stored error string is not whitespace-normalized (and an
over-long message would likewise exceed any cap). -/
theorem raw_error_string_not_normalized :
    (pdg_failure_record_srcsrc ("division  by zero")).lookupKey error_key =
      some (.str ("division  by zero")) ∧
    no_ws_run ("division  by zero").data = false := by
  constructor
  · rfl
  · decide

/-- C8 as amended: error strings that pass through `clean_error_message`
(the archive boundary, caps 50 and 100, and the fixed "timeout" record)
are whitespace-normalized and have length at most the cap, but the src/src
`build_simple_pdg` failure record returns the raw exception text
unmodified. -/
theorem clean_error_message_normalized_and_capped (e : String) :
    ((clean_error_message e 50).length ≤ 50 ∧
     no_ws_run (clean_error_message e 50).data = true) ∧
    ((clean_error_message e 100).length ≤ 100 ∧
     no_ws_run (clean_error_message e 100).data = true) ∧
    (timeout_msg.length ≤ 50 ∧ no_ws_run timeout_msg.data = true) ∧
    (pdg_failure_record_srcsrc e).lookupKey error_key = some (.str e) := by
  refine ⟨⟨clean_error_message_length_le e 50 (by omega),
    clean_error_message_normalized e 50⟩,
    ⟨clean_error_message_length_le e 100 (by omega),
    clean_error_message_normalized e 100⟩, ⟨by decide, by decide⟩, rfl⟩

/-- A per-statement record of build_pdg.py `_extract_statements_ast`
(archive, lines 209-234). -/
structure Stmt where
  id : Nat
  line : Nat
  text : String
  kind : String
  variables_used : List String
  variables_defined : List String
  function_calls : List String
deriving DecidableEq, Repr

instance : Inhabited Stmt :=
  ⟨{ id := 0, line := 0, text := "", kind := "",
     variables_used := [], variables_defined := [], function_calls := [] }⟩

/-- A data-dependency edge of build_pdg.py `_analyze_dependencies`; the
constant edge kind "data_dependency" is left implicit. -/
structure Dep where
  source : Nat
  target : Nat
  varName : String
  source_line : Nat
  target_line : Nat
deriving DecidableEq, Repr

/-- The keyword filter of `_extract_variable_usage_ast` (archive build_pdg,
line 244). -/
def c_keyword_filter : List String :=
  ["if", "while", "for", "return", "int", "char", "float", "double"]

/-- build_pdg.py `_extract_variable_usage_ast` (archive, lines 236-251):
all identifier texts in the statement subtree, minus the keyword filter;
the final `list(set(...))` is modelled by `dedup` (Python set order is
arbitrary; only the set matters downstream). -/
def extract_variable_usage_ast (n : Node) : List String :=
  (collect_node
    (fun m =>
      if m.kind == "identifier" && !(c_keyword_filter.contains m.text)
      then [m.text] else []) n).dedup

/-- One node's contribution to `_extract_variable_definitions_ast`
(archive, lines 253-276): the left identifier of an assignment, or the
first identifier child of an `init_declarator`. -/
def defs_at_node (m : Node) : List String :=
  if m.kind == "assignment_expression" then
    match m.children with
    | l :: _ => if l.kind == "identifier" then [l.text] else []
    | [] => []
  else if m.kind == "init_declarator" then
    match m.children.find? (fun c => c.kind == "identifier") with
    | some c => [c.text]
    | none => []
  else []

def extract_variable_definitions_ast (n : Node) : List String :=
  collect_node defs_at_node n

/-- build_pdg.py `_extract_function_calls_ast` (archive, lines 278-294):
the first identifier child of every call expression. -/
def extract_function_calls_ast (n : Node) : List String :=
  collect_node
    (fun m =>
      if m.kind == "call_expression" then
        match m.children.find? (fun c => c.kind == "identifier") with
        | some c => [c.text]
        | none => []
      else []) n

/-- The statement kinds collected by `_extract_statements_ast` (archive,
lines 214-216). -/
def stmt_kinds : List String :=
  ["expression_statement", "declaration", "assignment_expression",
   "call_expression", "if_statement", "while_statement", "for_statement",
   "return_statement"]

/-- build_pdg.py `_extract_statements_ast` (archive, lines 209-234):
pre-order collection of every node of a statement kind (nested statements
included), with sequential ids assigned in traversal order. -/
def extract_statements_ast (func : Node) : List Stmt :=
  ((collect_node (fun m => if stmt_kinds.contains m.kind then [m] else []) func).enum).map
    (fun p =>
      { id := p.1,
        line := p.2.start_row + 1,
        text := p.2.text.take 200,
        kind := p.2.kind,
        variables_used := extract_variable_usage_ast p.2,
        variables_defined := extract_variable_definitions_ast p.2,
        function_calls := extract_function_calls_ast p.2 })

/-- The backward scan `for j in range(i-1, -1, -1)` of
`_analyze_dependencies`: the most recent statement strictly before index
`i` whose defined-set contains `v`. -/
def last_def_before (stmts : List Stmt) (v : String) : Nat → Option Stmt
  | 0 => none
  | j + 1 =>
    match stmts[j]? with
    | some prev =>
      if v ∈ prev.variables_defined then some prev
      else last_def_before stmts v j
    | none => last_def_before stmts v j

/-- The dependency record emitted for one used variable of statement `s`
(at index `i`), if a prior definition exists. -/
def dep_for (i : Nat) (s : Stmt) (stmts : List Stmt) (v : String) : Option Dep :=
  (last_def_before stmts v i).map
    (fun prev =>
      { source := prev.id, target := s.id, varName := v,
        source_line := prev.line, target_line := s.line })

def deps_for_stmt (stmts : List Stmt) (i : Nat) (s : Stmt) : List Dep :=
  s.variables_used.filterMap (dep_for i s stmts)

/-- build_pdg.py `_analyze_dependencies` (archive lines 296-322 and
src/src lines 256-282): for each statement in id order and each used
variable, scan backward and emit one edge from the first prior defining
statement found. -/
def analyze_dependencies (stmts : List Stmt) : List Dep :=
  (List.range stmts.length).flatMap
    (fun i => deps_for_stmt stmts i (stmts.getD i default))

/-- The defined-variable set of the statement at index `j` (empty when out
of range). -/
def defined_at (stmts : List Stmt) (j : Nat) : List String :=
  ((stmts[j]?).map Stmt.variables_defined).getD []

/-- The source line of the statement at index `j` (0 when out of range). -/
def line_at (stmts : List Stmt) (j : Nat) : Nat :=
  ((stmts[j]?).map Stmt.line).getD 0

theorem extract_statements_id (func : Node) (k : Nat)
    (hk : k < (extract_statements_ast func).length) :
    ((extract_statements_ast func).getD k default).id = k := by
  rw [List.getD_eq_getElem?_getD, List.getElem?_eq_getElem hk, Option.getD_some]
  unfold extract_statements_ast at hk ⊢
  rw [List.getElem_map]
  simp only [List.getElem_enum]

theorem extract_statements_nodup_used (func : Node) (k : Nat)
    (hk : k < (extract_statements_ast func).length) :
    ((extract_statements_ast func).getD k default).variables_used.Nodup := by
  rw [List.getD_eq_getElem?_getD, List.getElem?_eq_getElem hk, Option.getD_some]
  unfold extract_statements_ast at hk ⊢
  rw [List.getElem_map]
  exact List.nodup_dedup _

theorem extract_statements_elem_id (func : Node) (j : Nat) (prev : Stmt)
    (hj : (extract_statements_ast func)[j]? = some prev) : prev.id = j := by
  obtain ⟨hlt, hget⟩ := List.getElem?_eq_some_iff.mp hj
  have h1 : (extract_statements_ast func).getD j default = prev := by
    rw [List.getD_eq_getElem?_getD, hj, Option.getD_some]
  rw [← h1]
  exact extract_statements_id func j hlt

theorem filter_flatMap_my {α β : Type} (l : List α) (f : α → List β) (p : β → Bool) :
    (l.flatMap f).filter p = l.flatMap (fun a => (f a).filter p) := by
  induction l with
  | nil => rfl
  | cons a l ih => rw [List.flatMap_cons, List.flatMap_cons, List.filter_append, ih]

theorem flatMap_eq_nil_my {α β : Type} (l : List α) (f : α → List β)
    (h : ∀ a ∈ l, f a = []) : l.flatMap f = [] := by
  induction l with
  | nil => rfl
  | cons a l ih =>
    rw [List.flatMap_cons, h a (List.mem_cons_self a l), List.nil_append]
    exact ih (fun b hb => h b (List.mem_cons_of_mem _ hb))

theorem flatMap_eq_single_my {α β : Type} [DecidableEq α] (i : α) (l : List α)
    (f : α → List β) (hnd : l.Nodup) (hi : i ∈ l)
    (h : ∀ a ∈ l, a ≠ i → f a = []) : l.flatMap f = f i := by
  induction l with
  | nil => cases hi
  | cons a l ih =>
    rw [List.flatMap_cons]
    rcases List.mem_cons.mp hi with rfl | hmem
    · have hrest : ∀ b ∈ l, f b = [] := by
        intro b hb
        refine h b (List.mem_cons_of_mem _ hb) ?_
        intro hbi
        subst hbi
        exact (List.nodup_cons.mp hnd).1 hb
      rw [flatMap_eq_nil_my l f hrest, List.append_nil]
    · have ha : f a = [] := by
        refine h a (List.mem_cons_self a l) ?_
        intro hai
        subst hai
        exact (List.nodup_cons.mp hnd).1 hmem
      rw [ha, List.nil_append]
      exact ih (List.nodup_cons.mp hnd).2 hmem
        (fun b hb => h b (List.mem_cons_of_mem _ hb))

theorem nodup_filter_eq_single {α : Type} [DecidableEq α] (l : List α) (v : α)
    (hnd : l.Nodup) (hv : v ∈ l) : l.filter (· == v) = [v] := by
  induction l with
  | nil => cases hv
  | cons a l ih =>
    by_cases hav : a = v
    · subst hav
      rw [List.filter_cons]
      simp only [beq_self_eq_true, if_true]
      have hnil : l.filter (· == a) = [] := by
        rw [List.filter_eq_nil_iff]
        intro b hb hba
        exact (List.nodup_cons.mp hnd).1 (by rw [← eq_of_beq hba]; exact hb)
      rw [hnil]
    · have hmem : v ∈ l := by
        rcases List.mem_cons.mp hv with h | h
        · exact absurd h.symm hav
        · exact h
      have hna : (a == v) = false := by
        apply beq_eq_false_iff_ne.mpr
        intro h
        subst h
        exact (List.nodup_cons.mp hnd).1 hmem
      rw [List.filter_cons]
      simp only [hna, Bool.false_eq_true, if_false]
      exact ih (List.nodup_cons.mp hnd).2 hmem

theorem last_def_before_none_iff (stmts : List Stmt) (v : String) :
    ∀ i, last_def_before stmts v i = none ↔
      ∀ j, j < i → v ∉ defined_at stmts j := by
  intro i
  induction i with
  | zero =>
    rw [last_def_before]
    constructor
    · intro _ j hj; omega
    · intro _; rfl
  | succ i ih =>
    rw [last_def_before]
    cases hj : stmts[i]? with
    | some prev =>
      by_cases hv : v ∈ prev.variables_defined
      · simp only [hv, if_true]
        constructor
        · intro h; cases h
        · intro h
          exfalso
          refine h i (by omega) ?_
          simp only [defined_at, hj, Option.map_some', Option.getD_some]
          exact hv
      · simp only [hv, if_false]
        rw [ih]
        constructor
        · intro h j hji
          by_cases hcase : j < i
          · exact h j hcase
          · have hje : j = i := by omega
            subst hje
            simp only [defined_at, hj, Option.map_some', Option.getD_some]
            exact hv
        · intro h j hji
          exact h j (by omega)
    | none =>
      rw [ih]
      constructor
      · intro h j hji
        by_cases hcase : j < i
        · exact h j hcase
        · have hje : j = i := by omega
          subst hje
          simp only [defined_at, hj, Option.map_none', Option.getD_none]
          exact List.not_mem_nil v
      · intro h j hji
        exact h j (by omega)

theorem last_def_before_some_spec (stmts : List Stmt) (v : String) :
    ∀ i prev, last_def_before stmts v i = some prev →
      ∃ j, j < i ∧ stmts[j]? = some prev ∧ v ∈ prev.variables_defined ∧
        ∀ k, j < k → k < i → v ∉ defined_at stmts k := by
  intro i
  induction i with
  | zero =>
    intro prev h
    rw [last_def_before] at h
    cases h
  | succ i ih =>
    intro prev h
    rw [last_def_before] at h
    cases hj : stmts[i]? with
    | some prev0 =>
      rw [hj] at h
      by_cases hv : v ∈ prev0.variables_defined
      · simp only [hv, if_true, Option.some.injEq] at h
        subst h
        exact ⟨i, by omega, hj, hv, fun k hk1 hk2 => by omega⟩
      · simp only [hv, if_false] at h
        obtain ⟨j, hji, hjs, hjv, hmax⟩ := ih prev h
        refine ⟨j, by omega, hjs, hjv, ?_⟩
        intro k hk1 hk2
        by_cases hki : k < i
        · exact hmax k hk1 hki
        · have hke : k = i := by omega
          subst hke
          simp only [defined_at, hj, Option.map_some', Option.getD_some]
          exact hv
    | none =>
      rw [hj] at h
      obtain ⟨j, hji, hjs, hjv, hmax⟩ := ih prev h
      refine ⟨j, by omega, hjs, hjv, ?_⟩
      intro k hk1 hk2
      by_cases hki : k < i
      · exact hmax k hk1 hki
      · have hke : k = i := by omega
        subst hke
        simp only [defined_at, hj, Option.map_none', Option.getD_none]
        exact List.not_mem_nil v

theorem dep_for_fields (i : Nat) (s : Stmt) (stmts : List Stmt) (u : String)
    (d : Dep) (hdf : dep_for i s stmts u = some d) :
    d.target = s.id ∧ d.varName = u := by
  rw [dep_for] at hdf
  cases hld : last_def_before stmts u i with
  | none => rw [hld] at hdf; cases hdf
  | some prev =>
    rw [hld] at hdf
    simp only [Option.map_some', Option.some.injEq] at hdf
    subst hdf
    exact ⟨rfl, rfl⟩

theorem deps_for_stmt_target (stmts : List Stmt) (i : Nat) (s : Stmt) (d : Dep)
    (hd : d ∈ deps_for_stmt stmts i s) :
    d.target = s.id ∧ d.varName ∈ s.variables_used := by
  rw [deps_for_stmt] at hd
  obtain ⟨v, hv, hdf⟩ := List.mem_filterMap.mp hd
  obtain ⟨ht, hn⟩ := dep_for_fields i s stmts v d hdf
  exact ⟨ht, by rw [hn]; exact hv⟩

theorem filter_deps_one_stmt (stmts : List Stmt) (i : Nat) (s : Stmt) (v : String)
    (hsid : s.id = i) (l : List String) :
    (l.filterMap (dep_for i s stmts)).filter
        (fun d => d.target == i && d.varName == v) =
      (l.filter (· == v)).filterMap (dep_for i s stmts) := by
  induction l with
  | nil => rfl
  | cons u l ih =>
    rw [List.filter_cons]
    by_cases huv : (u == v) = true
    · simp only [huv, if_true]
      cases hdf : dep_for i s stmts u with
      | none =>
        rw [List.filterMap_cons_none hdf, List.filterMap_cons_none hdf, ih]
      | some d =>
        rw [List.filterMap_cons_some hdf, List.filterMap_cons_some hdf,
          List.filter_cons]
        obtain ⟨ht, hn⟩ := dep_for_fields i s stmts u d hdf
        have hp : (d.target == i && d.varName == v) = true := by
          rw [ht, hsid, hn]
          simp [huv]
        simp only [hp, if_true, ih]
    · simp only [huv, Bool.false_eq_true, if_false]
      cases hdf : dep_for i s stmts u with
      | none => rw [List.filterMap_cons_none hdf, ih]
      | some d =>
        rw [List.filterMap_cons_some hdf, List.filter_cons]
        obtain ⟨ht, hn⟩ := dep_for_fields i s stmts u d hdf
        have hp : (d.target == i && d.varName == v) = false := by
          rw [ht, hsid, hn]
          simp only [Bool.and_eq_false_iff]
          right
          exact Bool.eq_false_iff.mpr huv
        simp only [hp, Bool.false_eq_true, if_false, ih]

theorem analyze_filter_reduce (func : Node) (i : Nat) (v : String)
    (hi : i < (extract_statements_ast func).length) :
    (analyze_dependencies (extract_statements_ast func)).filter
        (fun d => d.target == i && d.varName == v) =
      (((extract_statements_ast func).getD i default).variables_used.filter
          (· == v)).filterMap
        (dep_for i ((extract_statements_ast func).getD i default)
          (extract_statements_ast func)) := by
  rw [analyze_dependencies, filter_flatMap_my]
  rw [flatMap_eq_single_my i (List.range (extract_statements_ast func).length) _
    (List.nodup_range _) (List.mem_range.mpr hi) ?side]
  case side =>
    intro k hk hki
    rw [List.filter_eq_nil_iff]
    intro d hd
    obtain ⟨ht, _⟩ := deps_for_stmt_target (extract_statements_ast func) k _ d hd
    rw [extract_statements_id func k (List.mem_range.mp hk)] at ht
    simp only [Bool.and_eq_true, beq_iff_eq]
    intro hcon
    exact hki (by rw [← ht]; exact hcon.1)
  rw [deps_for_stmt]
  exact filter_deps_one_stmt _ i _ v (extract_statements_id func i hi) _

/-- C1: for every statement of the PDG builder's statement list and every
variable of its used-variable set, when some earlier statement defines the
variable exactly one data-dependency edge on that variable targets the
statement, and its source is the defining statement with the greatest id
below the target's id (the first hit of the backward scan); with no prior
definition, no edge on that variable targets the statement. -/
theorem pdg_backward_scan_unique_dependency (func : Node) (i : Nat) (v : String)
    (hi : i < (extract_statements_ast func).length)
    (hv : v ∈ ((extract_statements_ast func).getD i default).variables_used) :
    ((∃ j, j < i ∧ v ∈ defined_at (extract_statements_ast func) j) →
      ∃ jm, jm < i ∧ v ∈ defined_at (extract_statements_ast func) jm ∧
        (∀ k, jm < k → k < i → v ∉ defined_at (extract_statements_ast func) k) ∧
        (analyze_dependencies (extract_statements_ast func)).filter
            (fun d => d.target == i && d.varName == v) =
          [{ source := jm, target := i, varName := v,
             source_line := line_at (extract_statements_ast func) jm,
             target_line := line_at (extract_statements_ast func) i }]) ∧
    ((∀ j, j < i → v ∉ defined_at (extract_statements_ast func) j) →
      (analyze_dependencies (extract_statements_ast func)).filter
          (fun d => d.target == i && d.varName == v) = []) := by
  have hred := analyze_filter_reduce func i v hi
  have hnodup := extract_statements_nodup_used func i hi
  have hfil : (((extract_statements_ast func).getD i default).variables_used.filter
      (· == v)) = [v] := nodup_filter_eq_single _ v hnodup hv
  rw [hfil] at hred
  constructor
  · intro hex
    obtain ⟨j0, hj0, hdef0⟩ := hex
    cases hld : last_def_before (extract_statements_ast func) v i with
    | none =>
      exact absurd hdef0
        (((last_def_before_none_iff _ v i).mp hld) j0 hj0)
    | some prev =>
      obtain ⟨j, hji, hjs, hjv, hmax⟩ :=
        last_def_before_some_spec _ v i prev hld
      refine ⟨j, hji, ?_, hmax, ?_⟩
      · simp only [defined_at, hjs, Option.map_some', Option.getD_some]
        exact hjv
      · rw [hred]
        have hdf : dep_for i ((extract_statements_ast func).getD i default)
            (extract_statements_ast func) v = some
            { source := prev.id,
              target := ((extract_statements_ast func).getD i default).id,
              varName := v, source_line := prev.line,
              target_line :=
                ((extract_statements_ast func).getD i default).line } := by
          rw [dep_for, hld]
          rfl
        rw [List.filterMap_cons_some hdf, List.filterMap_nil]
        have hpid : prev.id = j := extract_statements_elem_id func j prev hjs
        have hiid := extract_statements_id func i hi
        have hsl2 : line_at (extract_statements_ast func) j = prev.line := by
          rw [line_at, hjs, Option.map_some', Option.getD_some]
        have hslt : line_at (extract_statements_ast func) i =
            ((extract_statements_ast func).getD i default).line := by
          rw [line_at, List.getElem?_eq_getElem hi, Option.map_some',
            Option.getD_some, List.getD_eq_getElem?_getD,
            List.getElem?_eq_getElem hi, Option.getD_some]
        rw [hpid, hiid, hsl2, hslt]
  · intro hnone
    have hld : last_def_before (extract_statements_ast func) v i = none :=
      (last_def_before_none_iff _ v i).mpr hnone
    rw [hred]
    have hdf : dep_for i ((extract_statements_ast func).getD i default)
        (extract_statements_ast func) v = none := by
      rw [dep_for, hld]
      rfl
    rw [List.filterMap_cons_none hdf, List.filterMap_nil]

/-- C10: every dependency edge emitted by `_analyze_dependencies` goes from
a smaller statement id to a strictly larger one, so the emitted
data-dependency graph has no cycle, whatever the source code (loops
included). -/
theorem dependency_edges_increase_ids_acyclic (func : Node) :
    (∀ d ∈ analyze_dependencies (extract_statements_ast func),
      d.source < d.target) ∧
    (∀ n : Nat, ¬ Relation.TransGen
      (fun a b => ∃ d ∈ analyze_dependencies (extract_statements_ast func),
        d.source = a ∧ d.target = b) n n) := by
  have hlt : ∀ d ∈ analyze_dependencies (extract_statements_ast func),
      d.source < d.target := by
    intro d hd
    rw [analyze_dependencies] at hd
    obtain ⟨i, hi, hdi⟩ := List.mem_flatMap.mp hd
    have hilen := List.mem_range.mp hi
    rw [deps_for_stmt] at hdi
    obtain ⟨v, hvmem, hdf⟩ := List.mem_filterMap.mp hdi
    rw [dep_for] at hdf
    cases hld : last_def_before (extract_statements_ast func) v i with
    | none =>
      rw [hld] at hdf
      cases hdf
    | some prev =>
      rw [hld] at hdf
      simp only [Option.map_some', Option.some.injEq] at hdf
      obtain ⟨j, hji, hjs, _, _⟩ := last_def_before_some_spec _ v i prev hld
      have hpid : prev.id = j := extract_statements_elem_id func j prev hjs
      have hsid := extract_statements_id func i hilen
      subst hdf
      show prev.id < ((extract_statements_ast func).getD i default).id
      rw [hpid, hsid]
      exact hji
  refine ⟨hlt, ?_⟩
  intro n hTG
  have hcollapse : ∀ a b : Nat, Relation.TransGen
      (fun a b => ∃ d ∈ analyze_dependencies (extract_statements_ast func),
        d.source = a ∧ d.target = b) a b → a < b := by
    intro a b h
    induction h with
    | single hr =>
      obtain ⟨d, hd, hs, ht⟩ := hr
      have := hlt d hd
      omega
    | tail hab hbc ih =>
      obtain ⟨d, hd, hs, ht⟩ := hbc
      have := hlt d hd
      omega
  have := hcollapse n n hTG
  omega

def ex_id (r : Nat) (t : String) : Node := .mk ("identifier") r t []

def ex_stmt0 : Node :=
  .mk ("assignment_expression") 0 ("x = 5")
    [ex_id 0 ("x"), .mk ("number_literal") 0 ("5") []]

def ex_stmt1 : Node :=
  .mk ("assignment_expression") 1 ("y = x") [ex_id 1 ("y"), ex_id 1 ("x")]

/-- A two-statement function body: the first statement defines `x`, the
second uses it. -/
def ex_func : Node := .mk ("function_definition") 0 ("f") [ex_stmt0, ex_stmt1]

theorem pdg_backward_scan_unique_dependency_witness :
    ∃ jm, jm < 1 ∧ ("x") ∈ defined_at (extract_statements_ast ex_func) jm ∧
      (∀ k, jm < k → k < 1 →
        ("x") ∉ defined_at (extract_statements_ast ex_func) k) ∧
      (analyze_dependencies (extract_statements_ast ex_func)).filter
          (fun d => d.target == 1 && d.varName == ("x")) =
        [{ source := jm, target := 1, varName := "x",
           source_line := line_at (extract_statements_ast ex_func) jm,
           target_line := line_at (extract_statements_ast ex_func) 1 }] :=
  (pdg_backward_scan_unique_dependency ex_func 1 ("x") (by decide)
    (by decide)).1 ⟨0, by decide, by decide⟩

theorem dependency_edges_acyclic_witness :
    ({ source := 0, target := 1, varName := "x", source_line := 1,
       target_line := 2 } : Dep).source <
      ({ source := 0, target := 1, varName := "x", source_line := 1,
         target_line := 2 } : Dep).target :=
  (dependency_edges_increase_ids_acyclic ex_func).1 _ (by decide)

/-- One statement entry of a basic block (build_cfg.py `process_statement`,
archive lines 186-216): line, stripped text capped at 100 characters, and
the statement kind. -/
structure BlockRec where
  line : Nat
  text : String
  kind : String
deriving DecidableEq, Repr

/-- build_cfg.py `_create_basic_block` (archive, lines 236-246).  The
callers only ever pass non-empty lists; the 0 defaults for the line fields
of an empty list are never reached. -/
structure Block where
  statements : List BlockRec
  start_line : Nat
  end_line : Nat
  statement_count : Nat
deriving DecidableEq, Repr

/-- The control-flow kinds of `process_statement` (archive build_cfg,
lines 192-194). -/
def control_kinds : List String :=
  ["if_statement", "while_statement", "for_statement", "switch_statement",
   "break_statement", "continue_statement", "return_statement",
   "goto_statement"]

/-- The statement kinds dispatched by `traverse_body` (archive build_cfg,
lines 220-222); note `goto_statement` is absent. -/
def dispatch_kinds : List String :=
  ["expression_statement", "declaration", "if_statement", "while_statement",
   "for_statement", "return_statement", "break_statement",
   "continue_statement", "switch_statement"]

def mk_block_rec (n : Node) : BlockRec :=
  { line := n.start_row + 1, text := (py_strip n.text).take 100,
    kind := n.kind }

def create_basic_block (l : List BlockRec) : Block :=
  { statements := l,
    start_line := (l.head?.map BlockRec.line).getD 0,
    end_line := (l.getLast?.map BlockRec.line).getD 0,
    statement_count := l.length }

/-- The mutable state of `_extract_basic_blocks`: the `basic_blocks`
accumulator and the open `current_block` list. -/
structure SegState where
  blocks : List Block
  current : List BlockRec
deriving Repr

/-- build_cfg.py `process_statement` (archive, lines 186-216): a
control-flow statement closes the (non-empty) open block and is emitted as
a singleton block; anything else appends to the open block. -/
def process_statement (n : Node) (st : SegState) : SegState :=
  if control_kinds.contains n.kind then
    { blocks :=
        (if st.current.isEmpty then st.blocks
         else st.blocks ++ [create_basic_block st.current]) ++
          [create_basic_block [mk_block_rec n]],
      current := [] }
  else
    { st with current := st.current ++ [mk_block_rec n] }

mutual

/-- build_cfg.py `traverse_body` (archive, lines 219-226): dispatch the
nine listed statement kinds to `process_statement`; recurse into the
children of every other node. -/
def traverse_body : Node → SegState → SegState
  | .mk k r t cs, st =>
    if dispatch_kinds.contains k then process_statement (.mk k r t cs) st
    else traverse_children cs st

def traverse_children : List Node → SegState → SegState
  | [], st => st
  | c :: cs, st => traverse_children cs (traverse_body c st)

end

/-- build_cfg.py `_extract_basic_blocks` (archive, lines 181-234). -/
def extract_basic_blocks (body : Node) : List Block :=
  let st := traverse_body body { blocks := [], current := [] }
  if st.current.isEmpty then st.blocks
  else st.blocks ++ [create_basic_block st.current]

mutual

/-- The sequence of nodes `traverse_body` dispatches, in document order. -/
def dispatched_node : Node → List Node
  | .mk k r t cs =>
    if dispatch_kinds.contains k then [.mk k r t cs]
    else dispatched_list cs

def dispatched_list : List Node → List Node
  | [] => []
  | c :: cs => dispatched_node c ++ dispatched_list cs

end

def seg_fold (st : SegState) (l : List Node) : SegState :=
  l.foldl (fun st n => process_statement n st) st

/-- Directed edge insertion with the set semantics of
`networkx.DiGraph.add_edge`: adding an existing edge is a no-op. -/
def add_edge (es : List (String × String)) (e : String × String) :
    List (String × String) :=
  if es.contains e then es else es ++ [e]

/-- The node name built by the f-string at line 289: the text block_ followed by the 1-based block number, for the 0-based index `i`. -/
def block_id (i : Nat) : String := "block_" ++ toString (i + 1)

def add_sequential_edges (num_blocks : Nat) (es : List (String × String)) :
    List (String × String) :=
  (List.range (num_blocks - 1)).foldl
    (fun es i => add_edge es (block_id i, block_id (i + 1))) es

/-- build_cfg.py `_add_control_flow_edges` (archive, lines 248-274), linear
part: entry to first block, sequential block edges, last block to exit;
entry straight to exit when there are no blocks. -/
def add_linear_edges (blocks : List Block) : List (String × String) :=
  if blocks.isEmpty then add_edge [] (("entry"), ("exit"))
  else
    add_edge
      (add_sequential_edges blocks.length (add_edge [] (("entry"), block_id 0)))
      (block_id (blocks.length - 1), ("exit"))

def branch_if_kinds : List String :=
  ["if_statement", "while_statement", "for_statement"]

def loop_kinds : List String := ["while_statement", "for_statement"]

/-- The per-statement `if`/`elif` chain of `_add_branch_edges` (archive,
lines 276-299), translated branch for branch: the first arm matches every
`if`/`while`/`for` statement, so the `elif` arm that would add the
self-loop for `while`/`for` can never fire. -/
def branch_step (num_blocks : Nat) (i : Nat) (es : List (String × String))
    (stmt : BlockRec) : List (String × String) :=
  if branch_if_kinds.contains stmt.kind then
    if i + 2 ≤ num_blocks then
      add_edge es
        (block_id i, if i + 3 ≤ num_blocks then block_id (i + 2) else ("exit"))
    else es
  else if loop_kinds.contains stmt.kind then
    add_edge es (block_id i, block_id i)
  else if stmt.kind == "return_statement" then
    add_edge es (block_id i, ("exit"))
  else es

def add_branch_edges (blocks : List Block) (es : List (String × String)) :
    List (String × String) :=
  (blocks.enum).foldl
    (fun es p => p.2.statements.foldl (branch_step blocks.length p.1) es) es

def build_cfg_edges (blocks : List Block) : List (String × String) :=
  add_branch_edges blocks (add_linear_edges blocks)

/-- The node list of the graph built by `_build_function_cfg` (archive,
lines 127-134): entry, one node per block, exit. -/
def cfg_nodes (blocks : List Block) : List String :=
  ("entry") :: ((List.range blocks.length).map block_id ++ [("exit")])

def out_degree (es : List (String × String)) (v : String) : Nat :=
  (es.filter (fun e => e.1 == v)).length

def successors (es : List (String × String)) (u : String) : List String :=
  (es.filter (fun e => e.1 == u)).map Prod.snd

def cycles_dfs (es : List (String × String)) (allowed : List String)
    (start : String) : Nat → String → List String → List (List String)
  | 0, _, _ => []
  | fuel + 1, u, path =>
    (successors es u).flatMap (fun w =>
      (if w == start then [path.reverse] else []) ++
      (if w ∈ allowed ∧ w ∉ path ∧ w ≠ start then
        cycles_dfs es allowed start fuel w (w :: path) else []))

/-- Models the external `networkx.simple_cycles` call of
`_build_function_cfg` (archive, line 147): enumerate the simple cycles of
the directed graph, each rooted at its first node in node order.  The
library is outside the repository; no claim depends on the enumeration
order. -/
def simple_cycles (nodes : List String) (es : List (String × String)) :
    List (List String) :=
  (nodes.enum).flatMap (fun p =>
    cycles_dfs es (nodes.drop (p.1 + 1)) p.2 nodes.length p.2 [p.2])

/-- The per-function result record of `_build_function_cfg` (archive,
lines 150-158 and 169-179). -/
structure CFGResult where
  success : Bool
  node_count : Nat
  edge_count : Nat
  complexity : Int
  cycles : List (List String)
  exit_nodes : List String
  basic_blocks : Nat
deriving DecidableEq, Repr

/-- build_cfg.py `_create_minimal_cfg` (archive, lines 169-179). -/
def create_minimal_cfg : CFGResult :=
  { success := true, node_count := 2, edge_count := 1, complexity := 1,
    cycles := [], exit_nodes := [("exit")], basic_blocks := 0 }

/-- The body lookup of `_build_function_cfg` (archive, lines 111-116):
first `compound_statement` child. -/
def find_body (func_node : Node) : Option Node :=
  func_node.children.find? (fun c => c.kind == "compound_statement")

/-- build_cfg.py `_build_function_cfg` (archive, lines 104-167). -/
def build_function_cfg (func_node : Node) : CFGResult :=
  match find_body func_node with
  | none => create_minimal_cfg
  | some body =>
    let blocks := extract_basic_blocks body
    if blocks.isEmpty then create_minimal_cfg
    else
      { success := true,
        node_count := (cfg_nodes blocks).length,
        edge_count := (build_cfg_edges blocks).length,
        complexity :=
          max 1 (((build_cfg_edges blocks).length : Int) -
            ((cfg_nodes blocks).length : Int) + 2),
        cycles := simple_cycles (cfg_nodes blocks) (build_cfg_edges blocks),
        exit_nodes :=
          (cfg_nodes blocks).filter
            (fun v => out_degree (build_cfg_edges blocks) v == 0),
        basic_blocks := blocks.length }

/-- Python `str.split(";")` over a character list (src/src build_cfg.py
`_extract_basic_blocks_safe`, line 149). -/
def split_semi : List Char → List (List Char)
  | [] => [[]]
  | c :: rest =>
    match split_semi rest with
    | [] => [[c]]
    | p :: ps => if c = ';' then [] :: p :: ps else (c :: p) :: ps

/-- src/src/build_cfg.py `_extract_basic_blocks_safe` (lines 143-153):
split the function text on semicolons, strip, keep the non-empty pieces. -/
def extract_basic_blocks_safe (func_text : List Char) : List (List Char) :=
  ((split_semi func_text).map py_strip_chars).filter (fun p => !p.isEmpty)

/-- The per-function result of src/src `_build_function_cfg_safe` (lines
103-141); its record has no `basic_blocks` key. -/
structure CFGSafeResult where
  success : Bool
  node_count : Nat
  edge_count : Nat
  complexity : Int
  cycles : List (List String)
  exit_nodes : List String
deriving Repr

/-- src/src/build_cfg.py `_build_function_cfg_safe` (lines 103-141): nodes
are entry, exit and one per block; edges are entry to the first block and
the last block to exit (when blocks exist); complexity is the raw block
count. -/
def build_function_cfg_safe (func_text : List Char) : CFGSafeResult :=
  { success := true,
    node_count := 2 + (extract_basic_blocks_safe func_text).length,
    edge_count := if (extract_basic_blocks_safe func_text).isEmpty then 0 else 2,
    complexity := ((extract_basic_blocks_safe func_text).length : Int),
    cycles := [],
    exit_nodes := [("exit")] }

/-- The two dispatched kinds that are not control-flow kinds. -/
abbrev ed_kind (k : String) : Prop :=
  k = "expression_statement" ∨ k = "declaration"

theorem dispatch_kind_split (k : String)
    (hd : dispatch_kinds.contains k = true) :
    control_kinds.contains k = true ∨ ed_kind k := by
  have hm : k ∈ dispatch_kinds := List.elem_iff.mp hd
  rw [dispatch_kinds] at hm
  fin_cases hm <;> decide

theorem ed_dispatch (k : String) (h : ed_kind k) :
    dispatch_kinds.contains k = true := by
  rcases h with rfl | rfl <;> decide

theorem ed_not_control (k : String) (h : ed_kind k) :
    control_kinds.contains k = false := by
  rcases h with rfl | rfl <;> decide

theorem dispatch_control_not_goto (k : String)
    (hd : dispatch_kinds.contains k = true) : k ≠ "goto_statement" := by
  intro h
  subst h
  exact absurd hd (by decide)

theorem seg_fold_append (st : SegState) (l1 l2 : List Node) :
    seg_fold st (l1 ++ l2) = seg_fold (seg_fold st l1) l2 := by
  rw [seg_fold, seg_fold, seg_fold, List.foldl_append]

theorem traverse_children_eq (cs : List Node)
    (ih : ∀ c ∈ cs, ∀ st, traverse_body c st = seg_fold st (dispatched_node c)) :
    ∀ st, traverse_children cs st = seg_fold st (dispatched_list cs) := by
  induction cs with
  | nil =>
    intro st
    rw [traverse_children, dispatched_list]
    rfl
  | cons c cs ihl =>
    intro st
    rw [traverse_children, dispatched_list, seg_fold_append]
    rw [ih c (List.mem_cons_self c cs) st]
    exact ihl (fun c2 hc2 => ih c2 (List.mem_cons_of_mem _ hc2)) _

theorem traverse_body_eq (n : Node) :
    ∀ st, traverse_body n st = seg_fold st (dispatched_node n) := by
  induction n using Node.my_ind with
  | h k r t cs ih =>
    intro st
    rw [traverse_body, dispatched_node]
    by_cases hk : dispatch_kinds.contains k = true
    · rw [if_pos hk, if_pos hk]
      rfl
    · rw [if_neg hk, if_neg hk]
      exact traverse_children_eq cs ih st

theorem dispatched_list_mem (cs : List Node) (m : Node)
    (hm : m ∈ dispatched_list cs) : ∃ c ∈ cs, m ∈ dispatched_node c := by
  induction cs with
  | nil =>
    rw [dispatched_list] at hm
    cases hm
  | cons c cs ihl =>
    rw [dispatched_list] at hm
    rcases List.mem_append.mp hm with h | h
    · exact ⟨c, List.mem_cons_self c cs, h⟩
    · obtain ⟨c2, hc2, hmc⟩ := ihl h
      exact ⟨c2, List.mem_cons_of_mem _ hc2, hmc⟩

theorem dispatched_node_kinds (n : Node) :
    ∀ m ∈ dispatched_node n, dispatch_kinds.contains m.kind = true := by
  induction n using Node.my_ind with
  | h k r t cs ih =>
    intro m hm
    rw [dispatched_node] at hm
    by_cases hk : dispatch_kinds.contains k = true
    · rw [if_pos hk] at hm
      have hme := List.mem_singleton.mp hm
      subst hme
      exact hk
    · rw [if_neg hk] at hm
      obtain ⟨c, hc, hmc⟩ := dispatched_list_mem cs m hm
      exact ih c hc m hmc

def good_block (b : Block) : Prop :=
  b.statements ≠ [] ∧
  (∀ s ∈ b.statements, dispatch_kinds.contains s.kind = true) ∧
  (∀ s ∈ b.statements, control_kinds.contains s.kind = true →
    b.statements = [s])

def seg_inv (st : SegState) : Prop :=
  (∀ b ∈ st.blocks, good_block b) ∧ (∀ s ∈ st.current, ed_kind s.kind)

def seg_flat (st : SegState) : List BlockRec :=
  st.blocks.flatMap Block.statements ++ st.current

theorem good_block_of_ed (l : List BlockRec) (hne : l ≠ [])
    (hed : ∀ s ∈ l, ed_kind s.kind) : good_block (create_basic_block l) := by
  refine ⟨hne, ?_, ?_⟩
  · intro s hs
    exact ed_dispatch s.kind (hed s hs)
  · intro s hs hctrl
    rw [ed_not_control s.kind (hed s hs)] at hctrl
    exact absurd hctrl Bool.false_ne_true

theorem good_block_singleton (x : BlockRec)
    (hx : dispatch_kinds.contains x.kind = true) :
    good_block (create_basic_block [x]) := by
  refine ⟨List.cons_ne_nil x [], ?_, ?_⟩
  · intro s hs
    have := List.mem_singleton.mp hs
    subst this
    exact hx
  · intro s hs _
    have := List.mem_singleton.mp hs
    subst this
    rfl

theorem process_statement_spec (n : Node) (st : SegState)
    (hn : dispatch_kinds.contains n.kind = true) (hinv : seg_inv st) :
    seg_inv (process_statement n st) ∧
    seg_flat (process_statement n st) = seg_flat st ++ [mk_block_rec n] := by
  rcases dispatch_kind_split n.kind hn with hc | hed
  · rw [process_statement, if_pos hc]
    refine ⟨⟨?_, ?_⟩, ?_⟩
    · intro b hb
      rcases List.mem_append.mp hb with hb1 | hb2
      · by_cases hcur : st.current.isEmpty = true
        · rw [if_pos hcur] at hb1
          exact hinv.1 b hb1
        · rw [if_neg hcur] at hb1
          rcases List.mem_append.mp hb1 with hb3 | hb4
          · exact hinv.1 b hb3
          · have hbeq := List.mem_singleton.mp hb4
            subst hbeq
            refine good_block_of_ed st.current ?_ hinv.2
            intro hnil
            rw [hnil] at hcur
            exact hcur rfl
      · have hbeq := List.mem_singleton.mp hb2
        subst hbeq
        exact good_block_singleton (mk_block_rec n) hn
    · intro s hs
      exact absurd hs (List.not_mem_nil s)
    · rw [seg_flat, seg_flat]
      by_cases hcur : st.current.isEmpty = true
      · rw [if_pos hcur]
        have hce : st.current = [] := List.isEmpty_iff.mp hcur
        rw [hce, List.flatMap_append, List.flatMap_cons, List.flatMap_nil]
        simp [create_basic_block]
      · rw [if_neg hcur]
        rw [List.flatMap_append, List.flatMap_append, List.flatMap_cons,
          List.flatMap_cons, List.flatMap_nil]
        simp [create_basic_block]
  · have hcf : control_kinds.contains n.kind = false := ed_not_control n.kind hed
    rw [process_statement, if_neg (by rw [hcf]; exact Bool.false_ne_true)]
    refine ⟨⟨hinv.1, ?_⟩, ?_⟩
    · intro s hs
      rcases List.mem_append.mp hs with h | h
      · exact hinv.2 s h
      · have := List.mem_singleton.mp h
        subst this
        exact hed
    · rw [seg_flat, seg_flat, List.append_assoc]

theorem seg_fold_spec (l : List Node) :
    ∀ st : SegState, (∀ n ∈ l, dispatch_kinds.contains n.kind = true) →
      seg_inv st →
      seg_inv (seg_fold st l) ∧
      seg_flat (seg_fold st l) = seg_flat st ++ l.map mk_block_rec := by
  induction l with
  | nil =>
    intro st _ hinv
    exact ⟨hinv, by rw [List.map_nil, List.append_nil]; rfl⟩
  | cons n l ih =>
    intro st hl hinv
    obtain ⟨hinv1, hflat1⟩ :=
      process_statement_spec n st (hl n (List.mem_cons_self n l)) hinv
    obtain ⟨hinv2, hflat2⟩ :=
      ih (process_statement n st) (fun m hm => hl m (List.mem_cons_of_mem _ hm))
        hinv1
    refine ⟨hinv2, ?_⟩
    have hstep : seg_fold st (n :: l) = seg_fold (process_statement n st) l := rfl
    rw [hstep, hflat2, hflat1, List.map_cons, List.append_assoc]
    rfl

theorem extract_basic_blocks_spec (body : Node) :
    (∀ b ∈ extract_basic_blocks body, good_block b) ∧
    (extract_basic_blocks body).flatMap Block.statements =
      (dispatched_node body).map mk_block_rec := by
  have h0 : seg_inv { blocks := [], current := [] } :=
    ⟨fun b hb => absurd hb (List.not_mem_nil b),
     fun s hs => absurd hs (List.not_mem_nil s)⟩
  obtain ⟨hinv, hflat⟩ :=
    seg_fold_spec (dispatched_node body) { blocks := [], current := [] }
      (dispatched_node_kinds body) h0
  rw [extract_basic_blocks, traverse_body_eq body _]
  have hflat0 : seg_flat { blocks := [], current := [] } = [] := rfl
  rw [hflat0, List.nil_append] at hflat
  by_cases hcur : (seg_fold { blocks := [], current := [] }
      (dispatched_node body)).current.isEmpty = true
  · rw [if_pos hcur]
    refine ⟨hinv.1, ?_⟩
    have hce := List.isEmpty_iff.mp hcur
    rw [seg_flat, hce, List.append_nil] at hflat
    exact hflat
  · rw [if_neg hcur]
    constructor
    · intro b hb
      rcases List.mem_append.mp hb with h | h
      · exact hinv.1 b h
      · have hbeq := List.mem_singleton.mp h
        subst hbeq
        refine good_block_of_ed _ ?_ hinv.2
        intro hnil
        rw [hnil] at hcur
        exact hcur rfl
    · rw [List.flatMap_append, List.flatMap_cons, List.flatMap_nil]
      rw [seg_flat] at hflat
      simpa [create_basic_block] using hflat

/-- C4 as amended: the traversal dispatches only nine statement kinds.
The seven control kinds among them (if, while, for, switch, break,
continue, return — but not goto, which `traverse_body` never dispatches)
close the open block and are emitted as singleton blocks; expression
statements and declarations append to the open block; every other node,
goto statements included, is skipped in favour of its children; the final
non-empty accumulator becomes a last block, and concatenating the blocks
reproduces the dispatched statements in document order. -/
theorem basic_block_segmentation_amended (body : Node) :
    ((extract_basic_blocks body).flatMap Block.statements =
      (dispatched_node body).map mk_block_rec) ∧
    (∀ b ∈ extract_basic_blocks body, b.statements ≠ []) ∧
    (∀ b ∈ extract_basic_blocks body, ∀ s ∈ b.statements,
      control_kinds.contains s.kind = true → b.statements = [s]) ∧
    (∀ b ∈ extract_basic_blocks body, ∀ s ∈ b.statements,
      s.kind = "expression_statement" ∨ s.kind = "declaration" ∨
        (control_kinds.contains s.kind = true ∧ s.kind ≠ "goto_statement")) := by
  obtain ⟨hgood, hflat⟩ := extract_basic_blocks_spec body
  refine ⟨hflat, fun b hb => (hgood b hb).1, fun b hb => (hgood b hb).2.2, ?_⟩
  intro b hb s hs
  have hdk := (hgood b hb).2.1 s hs
  rcases dispatch_kind_split s.kind hdk with hc | hed
  · exact Or.inr (Or.inr ⟨hc, dispatch_control_not_goto s.kind hdk⟩)
  · rcases hed with h | h
    · exact Or.inl h
    · exact Or.inr (Or.inl h)

theorem split_semi_ne_nil (l : List Char) : split_semi l ≠ [] := by
  cases l with
  | nil =>
    rw [split_semi]
    exact List.cons_ne_nil _ _
  | cons c rest =>
    rw [split_semi]
    cases h : split_semi rest with
    | nil => exact List.cons_ne_nil _ _
    | cons p ps =>
      dsimp only
      by_cases hc : c = ';'
      · rw [if_pos hc]
        exact List.cons_ne_nil _ _
      · rw [if_neg hc]
        exact List.cons_ne_nil _ _

theorem split_semi_mem (l : List Char) (c : Char) (hc : c ∈ l) (hne : c ≠ ';') :
    ∃ p ∈ split_semi l, c ∈ p := by
  induction l with
  | nil => cases hc
  | cons a rest ih =>
    rw [split_semi]
    cases hsp : split_semi rest with
    | nil => exact absurd hsp (split_semi_ne_nil rest)
    | cons p ps =>
      dsimp only
      rcases List.mem_cons.mp hc with hceq | hmem
      · subst hceq
        rw [if_neg hne]
        exact ⟨c :: p, List.mem_cons_self _ _, List.mem_cons_self c p⟩
      · obtain ⟨q, hq, hcq⟩ := ih hmem
        rw [hsp] at hq
        by_cases ha : a = ';'
        · rw [if_pos ha]
          exact ⟨q, List.mem_cons_of_mem _ hq, hcq⟩
        · rw [if_neg ha]
          rcases List.mem_cons.mp hq with hqe | hq2
          · subst hqe
            exact ⟨a :: q, List.mem_cons_self _ _, List.mem_cons_of_mem a hcq⟩
          · exact ⟨q, List.mem_cons_of_mem _ hq2, hcq⟩

theorem mem_dropWhile_of_not_ws (l : List Char) (c : Char) (hc : c ∈ l)
    (hw : py_ws c = false) : c ∈ l.dropWhile py_ws := by
  induction l with
  | nil => cases hc
  | cons a rest ih =>
    rw [List.dropWhile_cons]
    by_cases ha : py_ws a = true
    · rw [if_pos ha]
      rcases List.mem_cons.mp hc with hceq | hmem
      · subst hceq
        rw [hw] at ha
        exact absurd ha Bool.false_ne_true
      · exact ih hmem
    · rw [if_neg ha]
      exact hc

theorem py_strip_chars_ne_nil (p : List Char) (c : Char) (hc : c ∈ p)
    (hw : py_ws c = false) : py_strip_chars p ≠ [] := by
  rw [py_strip_chars]
  apply List.ne_nil_of_mem (a := c)
  apply List.mem_reverse.mpr
  apply mem_dropWhile_of_not_ws _ c ?_ hw
  apply List.mem_reverse.mpr
  exact mem_dropWhile_of_not_ws p c hc hw

theorem blocks_safe_ne_nil (text : List Char) (c : Char) (hc : c ∈ text)
    (hcs : c ≠ ';') (hw : py_ws c = false) :
    extract_basic_blocks_safe text ≠ [] := by
  obtain ⟨p, hp, hcp⟩ := split_semi_mem text c hc hcs
  rw [extract_basic_blocks_safe]
  apply List.ne_nil_of_mem (a := py_strip_chars p)
  rw [List.mem_filter]
  have hpn := py_strip_chars_ne_nil p c hcp hw
  refine ⟨List.mem_map_of_mem _ hp, ?_⟩
  have h2 : (py_strip_chars p).isEmpty = false := by
    cases hE : (py_strip_chars p).isEmpty
    · rfl
    · exact absurd (List.isEmpty_iff.mp hE) hpn
  rw [h2]
  rfl

/-- C2: every per-function CFG result with success = true reports a
cyclomatic complexity of at least 1 — in the archive builder because
`max(1, edges - nodes + 2)` and the minimal graph both floor it at 1, and
in the src/src `_build_function_cfg_safe` because any real function text
(one that contains some character that is neither a semicolon nor
whitespace) yields at least one basic block. -/
theorem cfg_complexity_at_least_one :
    (∀ func_node : Node, (build_function_cfg func_node).success = true →
      1 ≤ (build_function_cfg func_node).complexity) ∧
    (∀ func_text : List Char,
      (∃ c ∈ func_text, c ≠ ';' ∧ py_ws c = false) →
      (build_function_cfg_safe func_text).success = true →
      1 ≤ (build_function_cfg_safe func_text).complexity) := by
  constructor
  · intro fn _
    unfold build_function_cfg
    split
    · decide
    · dsimp only
      split
      · decide
      · exact le_max_left 1 _
  · intro text hex _
    obtain ⟨c, hc, hcs, hw⟩ := hex
    have hne := blocks_safe_ne_nil text c hc hcs hw
    have h1 : 1 ≤ (extract_basic_blocks_safe text).length :=
      List.length_pos.mpr hne
    show 1 ≤ ((extract_basic_blocks_safe text).length : Int)
    exact_mod_cast h1

/-- C5: when the function has no compound-statement body, or its body
yields no basic blocks, `_build_function_cfg` returns the fixed minimal
result: success, 2 nodes, 1 edge, complexity 1, no cycles, exit_nodes =
["exit"]. -/
theorem minimal_cfg_for_missing_or_empty_body (func_node : Node)
    (h : find_body func_node = none ∨
      ∃ body, find_body func_node = some body ∧
        extract_basic_blocks body = []) :
    build_function_cfg func_node =
      { success := true, node_count := 2, edge_count := 1, complexity := 1,
        cycles := [], exit_nodes := [("exit")], basic_blocks := 0 } := by
  rcases h with h | ⟨body, hb, hempty⟩
  · rw [build_function_cfg, h]
    decide
  · rw [build_function_cfg, hb]
    dsimp only
    rw [hempty]
    decide

def goto_stmt : Node :=
  .mk ("goto_statement") 1 ("goto done")
    [.mk ("statement_identifier") 1 ("done") []]

/-- A function body containing a single goto statement. -/
def goto_body : Node := .mk ("compound_statement") 0 ("") [goto_stmt]

def while_stmt : Node := .mk ("while_statement") 1 ("while (x) x = x - 1") []

/-- A function body containing a single while loop. -/
def while_body : Node := .mk ("compound_statement") 0 ("") [while_stmt]

def cf_expr : Node := .mk ("expression_statement") 0 ("a = 1;") []

def cf_if : Node := .mk ("if_statement") 1 ("if (x) a = 2;") []

/-- A function body with one plain statement followed by an if. -/
def cf_body : Node := .mk ("compound_statement") 0 ("") [cf_expr, cf_if]

def ex_cfg_func : Node := .mk ("function_definition") 0 ("") [cf_body]

/-- A function definition without a compound-statement body. -/
def no_body_func : Node :=
  .mk ("function_definition") 0 ("") [.mk ("function_declarator") 0 ("f()") []]

/-- C4 counterexample: a goto statement — one of the eight listed
control-transfer kinds — is never dispatched by `traverse_body`, so on a
body whose only statement is a goto the segmentation produces no block at
all instead of a singleton goto block. -/
theorem goto_statement_not_emitted_as_block :
    goto_stmt.kind = "goto_statement" ∧
    ("goto_statement") ∈ control_kinds ∧
    extract_basic_blocks goto_body = [] := by
  refine ⟨rfl, by decide, by decide⟩

def wit_rec : BlockRec :=
  { line := 2, text := "if (x) a = 2;", kind := "if_statement" }

def wit_block : Block :=
  { statements := [wit_rec], start_line := 2, end_line := 2,
    statement_count := 1 }

set_option maxRecDepth 8192 in
theorem basic_block_segmentation_amended_witness :
    wit_block.statements = [wit_rec] :=
  (basic_block_segmentation_amended cf_body).2.2.1 _ (by decide) _ (by decide)
    (by decide)

/-- C3: the code never adds the self-loop the spec promises.  On a body
whose single block contains a while statement, the loop arm of
`_add_branch_edges` is unreachable (the preceding `if` arm already matches
while/for), so the final edge set is just entry to block_1 to exit, with
no self-loop on block_1. -/
theorem cfg_loop_block_has_no_self_loop :
    (∃ b ∈ extract_basic_blocks while_body, ∃ s ∈ b.statements,
      loop_kinds.contains s.kind = true) ∧
    ((("block_1"), ("block_1")) ∉
      build_cfg_edges (extract_basic_blocks while_body)) ∧
    build_cfg_edges (extract_basic_blocks while_body) =
      [(("entry"), ("block_1")), (("block_1"), ("exit"))] := by
  refine ⟨by decide, by decide, by decide⟩

theorem cfg_complexity_at_least_one_witness :
    1 ≤ (build_function_cfg ex_cfg_func).complexity ∧
    1 ≤ (build_function_cfg_safe (("int x = 1;").data)).complexity :=
  ⟨cfg_complexity_at_least_one.1 ex_cfg_func (by decide),
   cfg_complexity_at_least_one.2 (("int x = 1;").data)
     ⟨'i', by decide, by decide, by decide⟩ (by decide)⟩

theorem minimal_cfg_witness :
    build_function_cfg no_body_func =
      { success := true, node_count := 2, edge_count := 1, complexity := 1,
        cycles := [], exit_nodes := [("exit")], basic_blocks := 0 } :=
  minimal_cfg_for_missing_or_empty_body no_body_func (Or.inl rfl)
